import Mathlib

/-!
# ramstore: the column store

A shallow embedding of the package `columnstore` (`column.go`, `unique_column.go`,
`util.go`).  A column is a record `name / maxConcurrency / data / writer`; every
method of the Go code that takes the column's lock and then reads or replaces
`data` becomes a function on that record, returning the method's result next to
the column after the call.  The lock itself only orders whole calls, so one call
is one step here.

The row type `T` comes with the equality of its `Equals` method, which is taken to
be equality of values (`DecidableEq T`).

The containers (`vector`, `hashset`) and the stream engine (`streams`) live in
other packages; their models follow the interface description of the
specification (section 6) and are marked as such.
-/

set_option autoImplicit false

namespace columnstore

/-! ## Collaborators: ordered sequence, set, stream engine -/

/-- Scan for the first element equal to `x` and drop it; `none` when there is none. -/
def removeFirst {T : Type} [DecidableEq T] (x : T) : List T → Option (List T)
  | [] => none
  | y :: ys => if y = x then some ys else (removeFirst x ys).map (fun l => y :: l)

namespace vector

/-- Modelled from the spec: the ordered-sequence container
`github.com/phantom820/collections/lists/vector`, which is not part of this
repository.  Section 6 gives its interface: `Add(T) -> bool`, `Remove(T) -> bool`,
`Collect()`, `Len()` and construction from an existing sequence.  A vector is the
sequence of its rows in iteration order. -/
structure Vector (T : Type) where
  elems : List T
deriving DecidableEq

variable {T : Type}

/-- Modelled from the spec: `vector.New(xs...)`, the vector holding `xs` in order. -/
def New (xs : List T) : Vector T := ⟨xs⟩

/-- Modelled from the spec: `Add` appends the row and reports that the sequence
changed (section 4.2: always true for an append-based sequence). -/
def Vector.Add (v : Vector T) (x : T) : Bool × Vector T :=
  (true, ⟨v.elems ++ [x]⟩)

/-- Modelled from the spec: `Remove` takes out the first row equal to `x` and
reports whether a removal occurred. -/
def Vector.Remove [DecidableEq T] (v : Vector T) (x : T) : Bool × Vector T :=
  match removeFirst x v.elems with
  | some l => (true, ⟨l⟩)
  | none => (false, v)

/-- Modelled from the spec: `Collect` copies the rows out in iteration order. -/
def Vector.Collect (v : Vector T) : List T := v.elems

/-- Modelled from the spec: `Len` is the number of rows. -/
def Vector.Len (v : Vector T) : Nat := v.elems.length

end vector

namespace hashset

/-- Modelled from the spec: the set container
`github.com/phantom820/collections/sets/hashset`, which is not part of this
repository.  Section 6 gives it the shape of the sequence container plus hashing
and equality on `T`.  The model keeps the members in a list; the order of that
list stands for the (unspecified) iteration order of the set, so statements about
a set are made up to order. -/
structure HashSet (T : Type) where
  elems : List T
deriving DecidableEq

variable {T : Type}

/-- The representation invariant of a set: no member occurs twice. -/
def HashSet.WF (s : HashSet T) : Prop := s.elems.Nodup

instance instDecidableWF [DecidableEq T] (s : HashSet T) : Decidable s.WF :=
  inferInstanceAs (Decidable s.elems.Nodup)

/-- Modelled from the spec: `Add` is a no-op reporting false when an equal member
exists (section 3), and adds the value reporting true otherwise. -/
def HashSet.Add [DecidableEq T] (s : HashSet T) (x : T) : Bool × HashSet T :=
  if x ∈ s.elems then (false, s) else (true, ⟨s.elems ++ [x]⟩)

/-- Modelled from the spec: `Remove` takes out the member equal to `x` and reports
whether a removal occurred. -/
def HashSet.Remove [DecidableEq T] (s : HashSet T) (x : T) : Bool × HashSet T :=
  if x ∈ s.elems then (true, ⟨s.elems.erase x⟩) else (false, s)

/-- Modelled from the spec: `Collect` copies the members out in iteration order. -/
def HashSet.Collect (s : HashSet T) : List T := s.elems

/-- Modelled from the spec: `Len` is the number of members. -/
def HashSet.Len (s : HashSet T) : Nat := s.elems.length

/-- Modelled from the spec: `hashset.New(xs...)` starts from the empty set and adds
the given values one after the other (section 4.3: duplicate values collapse to
one entry). -/
def New [DecidableEq T] (xs : List T) : HashSet T :=
  xs.foldl (fun s x => (s.Add x).2) ⟨[]⟩

end hashset

namespace streams

/-- Modelled from the spec: a stream of the engine `github.com/phantom820/streams`,
which is not part of this repository.  Section 6: `FromSlice(supplierOfSlice,
concurrencyDegree)` with `Filter`, `Map` and `Collect`.  The supplier is a callback;
`σ` is whatever the callback reads when the engine runs it.  Section 6 does not say
whether the engine runs it inside `FromSlice` or inside `Collect`, and nothing here
fixes that: the state is an argument. -/
structure Stream (σ T : Type) where
  supplier : σ → List T
  concurrency : Int

variable {σ T U : Type}

/-- Modelled from the spec: `FromSlice(f, concurrency)`. -/
def FromSlice (f : σ → List T) (concurrency : Int) : Stream σ T := ⟨f, concurrency⟩

/-- Number of workers the engine runs for a concurrency degree; a degree below one
is served by a single worker. -/
def workers (concurrency : Int) : Nat := if concurrency ≤ 1 then 1 else concurrency.toNat

/-- Cut a slice into consecutive pieces of `size` rows (the last one may be
shorter); `fuel` bounds the number of cuts. -/
def chunksOf (size : Nat) : Nat → List T → List (List T)
  | 0, xs => [xs]
  | fuel + 1, xs =>
    if xs.length ≤ size then [xs] else xs.take size :: chunksOf size fuel (xs.drop size)

/-- The work split of a slice among `k` workers: consecutive shards of
`⌈len / k⌉` rows. -/
def shards (k : Nat) (xs : List T) : List (List T) :=
  chunksOf ((xs.length + k - 1) / k) xs.length xs

/-- Modelled from the spec: the parallel pass.  Every worker runs `job` on its own
shard and the outputs are put together in shard order, so that the output follows
the input order whatever the worker count (section 6). -/
def runParallel (concurrency : Int) (job : List T → List U) (xs : List T) : List U :=
  ((shards (workers concurrency) xs).map job).flatten

/-- Modelled from the spec: `Filter(predicate)` keeps the rows satisfying the
predicate. -/
def Stream.Filter (s : Stream σ T) (p : T → Bool) : Stream σ T :=
  ⟨fun w => runParallel s.concurrency (List.filter p) (s.supplier w), s.concurrency⟩

/-- Modelled from the spec: `Map(transform)` replaces every row by its image. -/
def Stream.Map (s : Stream σ T) (g : T → U) : Stream σ U :=
  ⟨fun w => runParallel s.concurrency (List.map g) (s.supplier w), s.concurrency⟩

/-- Modelled from the spec: `Collect()` gives what the supplier returns, with the
passes stacked on it; `w` is the state the supplier reads when the engine runs
it. -/
def Stream.Collect (s : Stream σ T) (w : σ) : List T := s.supplier w

end streams

/-! ## util.go -/

/-- Go `computeConcurrency` of `util.go`: the concurrency used for processing a column
of `columnSize` rows. -/
def computeConcurrency (columnSize : Int) (maxConcurrency : Int) : Int :=
  if columnSize < 200 then 1
  else if columnSize ≤ 1000 ∧ maxConcurrency > 1 then 2
  else maxConcurrency

/-- Go `fileWriter` of `util.go`: the period between two dumps (nanoseconds) and the
`stopped` flag.  The shutdown channel carries no data of the column and is left
out. -/
structure fileWriter (T : Type) where
  period : Int
  stopped : Bool
deriving DecidableEq

/-! ## column.go -/

/-- Go `Column` of `column.go`: a single column that allows duplicate rows. -/
structure Column (T : Type) where
  name : String
  maxConcurrency : Int
  data : vector.Vector T
  writer : Option (fileWriter T)
deriving DecidableEq

/-- Go `NewColumn`: an empty column with the given name, without a writer. -/
def NewColumn {T : Type} (name : String) (maxConcurrency : Int) : Column T :=
  { name := name, maxConcurrency := maxConcurrency, data := vector.New [], writer := none }

namespace Column

variable {T : Type}

/-- Go `All`: all rows in the column. -/
def All (c : Column T) : List T := c.data.Collect

/-- Go `Len`: the number of rows in the column. -/
def Len (c : Column T) : Nat := c.data.Len

/-- Go `Insert`: `c.data.Add(x)`; the result is what `Add` reports. -/
def Insert (c : Column T) (x : T) : Bool × Column T :=
  let r := c.data.Add x
  (r.1, { c with data := r.2 })

/-- Go `Delete`: `c.data.Remove(x)`; the result is what `Remove` reports. -/
def Delete [DecidableEq T] (c : Column T) (x : T) : Bool × Column T :=
  let r := c.data.Remove x
  (r.1, { c with data := r.2 })

/-- Go `DeleteWhere`: filter the rows with the negated predicate at the computed
concurrency and install a new vector built from the outcome. -/
def DeleteWhere (c : Column T) (f : T → Bool) : Column T :=
  let newData :=
    ((streams.FromSlice (fun (_ : Unit) => c.data.Collect)
        (computeConcurrency c.data.Len c.maxConcurrency)).Filter (fun x => !f x)).Collect ()
  { c with data := vector.New newData }

/-- Go `FindWhere`: the rows satisfying the predicate, next to the column after the
call (the method assigns to no field). -/
def FindWhere (c : Column T) (f : T → Bool) : List T × Column T :=
  (((streams.FromSlice (fun (_ : Unit) => c.data.Collect)
      (computeConcurrency c.Len c.maxConcurrency)).Filter f).Collect (), c)

/-- Go `Stream`: a stream whose supplier reads `data` of the column it is run on; the
concurrency is computed when `Stream` is called. -/
def Stream (c : Column T) : streams.Stream (Column T) T :=
  streams.FromSlice (fun (c' : Column T) => c'.data.Collect)
    (computeConcurrency c.Len c.maxConcurrency)

/-- Go `UpdateWhere`: map every row satisfying `f` to its image under `g` at the
computed concurrency and install a new vector built from the outcome. -/
def UpdateWhere (c : Column T) (f : T → Bool) (g : T → T) : Column T :=
  let newData :=
    ((streams.FromSlice (fun (_ : Unit) => c.data.Collect)
        (computeConcurrency c.data.Len c.maxConcurrency)).Map
          (fun x => if f x then g x else x)).Collect ()
  { c with data := vector.New newData }

end Column

/-! ## unique_column.go -/

/-- Go `UniqueColumn` of `unique_column.go`: a single column in which each row is
unique. -/
structure UniqueColumn (T : Type) where
  name : String
  maxConcurrency : Int
  data : hashset.HashSet T
  writer : Option (fileWriter T)
deriving DecidableEq

/-- Go `NewUniqueColumn`: an empty unique column with the given name, without a
writer. -/
def NewUniqueColumn {T : Type} [DecidableEq T] (name : String) (maxConcurrency : Int) :
    UniqueColumn T :=
  { name := name, maxConcurrency := maxConcurrency, data := hashset.New [], writer := none }

namespace UniqueColumn

variable {T : Type}

/-- Go `All`: all rows in the column. -/
def All (c : UniqueColumn T) : List T := c.data.Collect

/-- Go `Len`: the number of rows in the column. -/
def Len (c : UniqueColumn T) : Nat := c.data.Len

/-- Go `Insert`: `c.data.Add(x)`; the result is what `Add` reports. -/
def Insert [DecidableEq T] (c : UniqueColumn T) (x : T) : Bool × UniqueColumn T :=
  let r := c.data.Add x
  (r.1, { c with data := r.2 })

/-- Go `Delete`: `c.data.Remove(x)`; the result is what `Remove` reports. -/
def Delete [DecidableEq T] (c : UniqueColumn T) (x : T) : Bool × UniqueColumn T :=
  let r := c.data.Remove x
  (r.1, { c with data := r.2 })

/-- Go `DeleteWhere`: filter the rows with the negated predicate at the computed
concurrency, install a new set built from the outcome and return true. -/
def DeleteWhere [DecidableEq T] (c : UniqueColumn T) (f : T → Bool) : Bool × UniqueColumn T :=
  let newData :=
    ((streams.FromSlice (fun (_ : Unit) => c.data.Collect)
        (computeConcurrency c.data.Len c.maxConcurrency)).Filter (fun x => !f x)).Collect ()
  (true, { c with data := hashset.New newData })

/-- Go `FindWhere`: the rows satisfying the predicate, next to the column after the
call (the method assigns to no field). -/
def FindWhere (c : UniqueColumn T) (f : T → Bool) : List T × UniqueColumn T :=
  (((streams.FromSlice (fun (_ : Unit) => c.data.Collect)
      (computeConcurrency c.data.Len c.maxConcurrency)).Filter f).Collect (), c)

/-- Go `Stream`: a stream whose supplier reads `data` of the column it is run on; the
concurrency is computed when `Stream` is called. -/
def Stream (c : UniqueColumn T) : streams.Stream (UniqueColumn T) T :=
  streams.FromSlice (fun (c' : UniqueColumn T) => c'.data.Collect)
    (computeConcurrency c.data.Len c.maxConcurrency)

/-- Go `UpdateWhere`: map every row satisfying `f` to its image under `g` at the
computed concurrency, install a new set built from the outcome and return true. -/
def UpdateWhere [DecidableEq T] (c : UniqueColumn T) (f : T → Bool) (g : T → T) :
    Bool × UniqueColumn T :=
  let newData :=
    ((streams.FromSlice (fun (_ : Unit) => c.data.Collect)
        (computeConcurrency c.data.Len c.maxConcurrency)).Map
          (fun x => if f x then g x else x)).Collect ()
  (true, { c with data := hashset.New newData })

end UniqueColumn

/-- Insert the values of `xs` one by one, left to right, into a column. -/
def Column.insertAll {T : Type} (c : Column T) (xs : List T) : Column T :=
  xs.foldl (fun c x => (c.Insert x).2) c

/-- Insert the values of `xs` one by one, left to right, into a unique column. -/
def UniqueColumn.insertAll {T : Type} [DecidableEq T] (c : UniqueColumn T) (xs : List T) :
    UniqueColumn T :=
  xs.foldl (fun c x => (c.Insert x).2) c

/-! ## Concrete columns -/

/-- The unique column of `unique_column_test.go`: `Marks`, concurrency 2, seeded
with 0..5. -/
def marks : UniqueColumn Int :=
  (NewUniqueColumn "Marks" 2).insertAll [0, 1, 2, 3, 4, 5]

/-- A column with repeated rows: `Marks`, concurrency 2, rows 0, 1, 2, 1, 4, 1. -/
def grades : Column Int :=
  (NewColumn "Marks" 2).insertAll [0, 1, 2, 1, 4, 1]

/-! ## Sequences of calls on a unique column -/

/-- One mutating call on a unique column, with its arguments. -/
inductive UniqueCall (T : Type) where
  | insert (x : T)
  | delete (x : T)
  | deleteWhere (P : T → Bool)
  | updateWhere (P : T → Bool) (f : T → T)

/-- The unique column after one call. -/
def UniqueColumn.call {T : Type} [DecidableEq T] (c : UniqueColumn T) :
    UniqueCall T → UniqueColumn T
  | .insert x => (c.Insert x).2
  | .delete x => (c.Delete x).2
  | .deleteWhere P => (c.DeleteWhere P).2
  | .updateWhere P f => (c.UpdateWhere P f).2

/-- The unique column after a sequence of calls, made left to right. -/
def UniqueColumn.calls {T : Type} [DecidableEq T] (c : UniqueColumn T)
    (cs : List (UniqueCall T)) : UniqueColumn T :=
  cs.foldl UniqueColumn.call c

/-! ## Persistence: containers by address, writer goroutines, the read-write lock

`c.data` and `c.writer` are pointers.  `Insert` and `Delete` change the container
`c.data` points to; `DeleteWhere` and `UpdateWhere` make `c.data` point to a new
container.  `Persist` starts a goroutine with the arguments of its `go` statement
evaluated on the spot, among them the method value `c.data.Collect`, whose receiver
is the container `c.data` points to at that moment.  The containers therefore live
on a heap here, and a column is the record of its fields with `data` an address.

The read-write lock: a goroutine inside `writeToFile` holds the read lock from its
`mux.RLock()` to its return; a method of the column holds the lock for the time of
its call.  A call that needs the exclusive lock while a reader holds the lock does
not complete, which is `none` below. -/

/-- Where a goroutine executing `writeToFile` stands: started by `go` and not yet
past `mux.RLock()`; past it, in the `for` loop; returned (the deferred
`mux.RUnlock()` is done). -/
inductive Phase where
  | spawned
  | running
  | returned
deriving DecidableEq

/-- A goroutine started by
`go c.writer.writeToFile(&c.RWMutex, file, c.name, c.data.Collect)`: the receiver
`fileWriter`, the file (its name and its content, one entry per `Fprintf`), the
header `c.name`, the address of the container bound by `c.data.Collect`, and the
point the goroutine has reached. -/
structure writerTask (T : Type) where
  writer : fileWriter T
  outputFilename : String
  file : List String
  header : String
  data : Nat
  phase : Phase
deriving DecidableEq

/-- A column (`D` is the container type) as the Go object it is: the containers by
address, the fields of the struct with `data` and `writer` as pointers (`writer`
points to the `fileWriter` of a goroutine of `tasks`), the goroutines started by
`Persist`, and the messages sent on shutdown channels so far. -/
structure Shared (D T : Type) where
  heap : Nat → D
  next : Nat
  name : String
  maxConcurrency : Int
  data : Nat
  writer : Option Nat
  tasks : List (writerTask T)
  signals : List String

namespace Shared

variable {D T : Type}

/-- A column holding the container `d`, without a writer and without goroutines. -/
def fresh (name : String) (maxConcurrency : Int) (d : D) : Shared D T :=
  { heap := fun _ => d, next := 1, name := name, maxConcurrency := maxConcurrency,
    data := 0, writer := none, tasks := [], signals := [] }

/-- The container `c.data` points to. -/
def container (s : Shared D T) : D := s.heap s.data

/-- The `fileWriter` `c.writer` points to, if any. -/
def writerValue (s : Shared D T) : Option (fileWriter T) :=
  match s.writer with
  | none => none
  | some i => (s.tasks.get? i).map (fun t => t.writer)

/-- Whether some goroutine holds the read lock. -/
def readLocked (s : Shared D T) : Bool :=
  s.tasks.any (fun t => decide (t.phase = Phase.running))

/-- The container `c.data` points to is changed in place. -/
def store (s : Shared D T) (d : D) : Shared D T :=
  { s with heap := Function.update s.heap s.data d }

/-- The assignment `c.data = d` of a newly built container. -/
def install (s : Shared D T) (d : D) : Shared D T :=
  { s with heap := Function.update s.heap s.next d, data := s.next, next := s.next + 1 }

/-- Replace the goroutine at position `i`. -/
def setTask (s : Shared D T) (i : Nat) (t : writerTask T) : Shared D T :=
  { s with tasks := s.tasks.set i t }

/-- The content of the file of goroutine `i`. -/
def fileOf (s : Shared D T) (i : Nat) : List String :=
  match s.tasks.get? i with
  | some t => t.file
  | none => []

/-- Go `Persist`.  `err` is the error of `os.Create(outputFilename)`, if it fails.
On failure the error is returned.  Otherwise a `fileWriter` is made, `c.writer`
points to it and a goroutine is started on the (empty) file with `c.name` and
`c.data.Collect`; nil is returned. -/
def Persist (s : Shared D T) (err : Option String) (outputFilename : String)
    (period : Int) : Option String × Shared D T :=
  match err with
  | some e => (some e, s)
  | none =>
    (none,
      { s with
        writer := some s.tasks.length
        tasks := s.tasks ++
          [{ writer := { period := period, stopped := false },
             outputFilename := outputFilename, file := [], header := s.name,
             data := s.data, phase := Phase.spawned }] })

/-- Go `fileWriter.shutdown` seen from the goroutine it addresses: `stopped` is
set, the goroutine takes the message in its `select`, answers and returns. -/
def shutdownTask (t : writerTask T) : writerTask T :=
  { t with writer := { t.writer with stopped := true }, phase := Phase.returned }

/-- Go `StopPersistence`: nothing if `c.writer` is nil; otherwise `shutdown()` on
the writer (a message to the goroutine and its answer), then `c.writer = nil`. -/
def StopPersistence (s : Shared D T) : Shared D T :=
  match s.writer with
  | none => s
  | some i =>
    match s.tasks.get? i with
    | none => { s with writer := none }
    | some t =>
      { (s.setTask i (shutdownTask t)) with
        signals := s.signals ++ ["Down", "Down"], writer := none }

/-- The goroutine `i` passes `mux.RLock()` and enters the loop of `writeToFile`. -/
def start (s : Shared D T) (i : Nat) : Shared D T :=
  match s.tasks.get? i with
  | some t => if t.phase = Phase.spawned then s.setTask i { t with phase := Phase.running } else s
  | none => s

/-- One data line per row: `Fprintf(file, "%v, %v\n", val, time.Now())`.  `fmt` is
the text of a row under `%v` and `now k` the text of the clock at the `k`-th row. -/
def rowLines (fmt : T → String) (now : Nat → String) : Nat → List T → List String
  | _, [] => []
  | k, v :: vs => (fmt v ++ ", " ++ now k ++ "\n") :: rowLines fmt now (k + 1) vs

/-- The header line: `Fprintf(file, "%v, Timestamp\n", header)`. -/
def headerLine (header : String) : String := header ++ ", Timestamp\n"

/-- One round of the loop of `writeToFile` taken on the timer: `file.Truncate(0)`,
`file.Seek(0, 0)`, the header line, then one line per row of `data()`.  `collect`
is the `Collect` of the container type; `data()` runs it on the container bound
when the goroutine was started. -/
def tick (collect : D → List T) (fmt : T → String) (now : Nat → String)
    (s : Shared D T) (i : Nat) : Shared D T :=
  match s.tasks.get? i with
  | some t =>
    if t.phase = Phase.running then
      s.setTask i { t with file := headerLine t.header :: rowLines fmt now 0 (collect (s.heap t.data)) }
    else s
  | none => s

end Shared

/-- A `*Column[T]`. -/
abbrev ColumnRef (T : Type) := Shared (vector.Vector T) T

/-- A `*UniqueColumn[T]`. -/
abbrev UniqueColumnRef (T : Type) := Shared (hashset.HashSet T) T

namespace ColumnRef

variable {T : Type}

/-- The column `c` without a writer, as an object. -/
def ofColumn (c : Column T) : ColumnRef T := Shared.fresh c.name c.maxConcurrency c.data

/-- The fields of the column with the pointers followed. -/
def column (s : ColumnRef T) : Column T :=
  { name := s.name, maxConcurrency := s.maxConcurrency, data := s.container,
    writer := s.writerValue }

/-- Go `Insert` under `c.Lock()`: `c.data.Add(x)` changes the container in place. -/
def Insert (s : ColumnRef T) (x : T) : Option (Bool × ColumnRef T) :=
  if s.readLocked then none
  else some ((s.column.Insert x).1, s.store (s.column.Insert x).2.data)

/-- Go `Delete` under `c.Lock()`: `c.data.Remove(x)` changes the container in
place. -/
def Delete [DecidableEq T] (s : ColumnRef T) (x : T) : Option (Bool × ColumnRef T) :=
  if s.readLocked then none
  else some ((s.column.Delete x).1, s.store (s.column.Delete x).2.data)

/-- Go `DeleteWhere` under `c.Lock()`: `c.data = vector.New(newData...)`. -/
def DeleteWhere (s : ColumnRef T) (f : T → Bool) : Option (ColumnRef T) :=
  if s.readLocked then none
  else some (s.install (s.column.DeleteWhere f).data)

/-- Go `UpdateWhere` under `c.Lock()`: `c.data = vector.New(newData...)`. -/
def UpdateWhere (s : ColumnRef T) (f : T → Bool) (g : T → T) : Option (ColumnRef T) :=
  if s.readLocked then none
  else some (s.install (s.column.UpdateWhere f g).data)

/-- The round of `writeToFile` for a column: `data` is `c.data.Collect`. -/
def tick (fmt : T → String) (now : Nat → String) (s : ColumnRef T) (i : Nat) :
    ColumnRef T :=
  Shared.tick vector.Vector.Collect fmt now s i

end ColumnRef

namespace UniqueColumnRef

variable {T : Type}

/-- The unique column `c` without a writer, as an object. -/
def ofColumn (c : UniqueColumn T) : UniqueColumnRef T :=
  Shared.fresh c.name c.maxConcurrency c.data

/-- The fields of the unique column with the pointers followed. -/
def column (s : UniqueColumnRef T) : UniqueColumn T :=
  { name := s.name, maxConcurrency := s.maxConcurrency, data := s.container,
    writer := s.writerValue }

/-- Go `Insert` under `c.Lock()`: `c.data.Add(x)` changes the set in place. -/
def Insert [DecidableEq T] (s : UniqueColumnRef T) (x : T) :
    Option (Bool × UniqueColumnRef T) :=
  if s.readLocked then none
  else some ((s.column.Insert x).1, s.store (s.column.Insert x).2.data)

/-- Go `Delete` under `c.Lock()`: `c.data.Remove(x)` changes the set in place. -/
def Delete [DecidableEq T] (s : UniqueColumnRef T) (x : T) :
    Option (Bool × UniqueColumnRef T) :=
  if s.readLocked then none
  else some ((s.column.Delete x).1, s.store (s.column.Delete x).2.data)

/-- Go `DeleteWhere` under `c.Lock()`: `c.data = hashset.New(newData...)`, then
true. -/
def DeleteWhere [DecidableEq T] (s : UniqueColumnRef T) (f : T → Bool) :
    Option (Bool × UniqueColumnRef T) :=
  if s.readLocked then none
  else some (true, s.install (s.column.DeleteWhere f).2.data)

/-- Go `UpdateWhere` under `c.Lock()`: `c.data = hashset.New(newData...)`, then
true. -/
def UpdateWhere [DecidableEq T] (s : UniqueColumnRef T) (f : T → Bool) (g : T → T) :
    Option (Bool × UniqueColumnRef T) :=
  if s.readLocked then none
  else some (true, s.install (s.column.UpdateWhere f g).2.data)

/-- The round of `writeToFile` for a unique column: `data` is `c.data.Collect`. -/
def tick (fmt : T → String) (now : Nat → String) (s : UniqueColumnRef T) (i : Nat) :
    UniqueColumnRef T :=
  Shared.tick hashset.HashSet.Collect fmt now s i

end UniqueColumnRef

/-! ## A persisted column -/

/-- The column `c` right after a successful `Persist(outputFilename, period)`: the
writer goroutine is started and has not yet taken the read lock. -/
def ColumnRef.persisted {T : Type} (c : Column T) (outputFilename : String) (period : Int) :
    ColumnRef T :=
  ((ColumnRef.ofColumn c).Persist none outputFilename period).2

/-- The column `c` with persistence running: after a successful `Persist` the writer
goroutine has taken the read lock and is in its loop. -/
def ColumnRef.persisting {T : Type} (c : Column T) (outputFilename : String) (period : Int) :
    ColumnRef T :=
  (ColumnRef.persisted c outputFilename period).start 0

/-- The unique column `c` right after a successful `Persist(outputFilename,
period)`. -/
def UniqueColumnRef.persisted {T : Type} (c : UniqueColumn T) (outputFilename : String)
    (period : Int) : UniqueColumnRef T :=
  ((UniqueColumnRef.ofColumn c).Persist none outputFilename period).2

/-- The unique column `c` with persistence running. -/
def UniqueColumnRef.persisting {T : Type} (c : UniqueColumn T) (outputFilename : String)
    (period : Int) : UniqueColumnRef T :=
  (UniqueColumnRef.persisted c outputFilename period).start 0

/-- A column of four rows: `Marks`, concurrency 2, rows 0, 1, 2, 3. -/
def quads : Column Int :=
  (NewColumn "Marks" 2).insertAll [0, 1, 2, 3]

/-- The column `quads` right after a successful `Persist("marks.csv", 1000)`: the
writer goroutine is started and has not yet taken the read lock. -/
def quadsPersisted : ColumnRef Int :=
  ColumnRef.persisted quads "marks.csv" 1000

/-- The text of a row under `%v`, for integer rows. -/
def showRow (x : Int) : String := toString x

/-- A clock that reads `now` at every row. -/
def clock (_ : Nat) : String := "now"

/-! ## Lemmas on the collaborators -/

section helpers

variable {T U : Type}

theorem removeFirst_eq_none [DecidableEq T] (x : T) (l : List T) :
    removeFirst x l = none ↔ x ∉ l := by
  induction l with
  | nil => simp [removeFirst]
  | cons y ys ih =>
    by_cases h : y = x
    · simp [removeFirst, h]
    · have h2 : ¬ x = y := fun e => h e.symm
      simp [removeFirst, h, h2, ih]

theorem removeFirst_eq_some [DecidableEq T] (x : T) (l l2 : List T)
    (h : removeFirst x l = some l2) :
    ∃ pre post, l = pre ++ x :: post ∧ x ∉ pre ∧ l2 = pre ++ post := by
  induction l generalizing l2 with
  | nil => simp [removeFirst] at h
  | cons y ys ih =>
    by_cases hy : y = x
    · simp only [removeFirst, hy, if_true, Option.some.injEq] at h
      exact ⟨[], ys, by simp [hy], by simp, by simp [h]⟩
    · simp only [removeFirst, hy, if_false, Option.map_eq_some'] at h
      obtain ⟨l3, h3, rfl⟩ := h
      obtain ⟨pre, post, e1, e2, e3⟩ := ih l3 h3
      refine ⟨y :: pre, post, by simp [e1], ?_, by simp [e3]⟩
      intro hm
      rcases List.mem_cons.1 hm with e | e
      · exact hy e.symm
      · exact e2 e

theorem chunksOf_flatten (size fuel : Nat) (xs : List T) :
    (streams.chunksOf size fuel xs).flatten = xs := by
  induction fuel generalizing xs with
  | zero => simp [streams.chunksOf]
  | succ n ih =>
    unfold streams.chunksOf
    split
    · simp
    · simp [ih]

theorem shards_flatten (k : Nat) (xs : List T) : (streams.shards k xs).flatten = xs :=
  chunksOf_flatten _ _ xs

theorem runParallel_filter (concurrency : Int) (p : T → Bool) (xs : List T) :
    streams.runParallel concurrency (List.filter p) xs = xs.filter p := by
  unfold streams.runParallel
  rw [← List.filter_flatten, shards_flatten]

theorem runParallel_map (concurrency : Int) (g : T → U) (xs : List T) :
    streams.runParallel concurrency (List.map g) xs = xs.map g := by
  unfold streams.runParallel
  rw [← List.map_flatten, shards_flatten]

theorem collect_filter (concurrency : Int) (p : T → Bool) (xs : List T) :
    ((streams.FromSlice (fun (_ : Unit) => xs) concurrency).Filter p).Collect () =
      xs.filter p := by
  simp [streams.Stream.Collect, streams.Stream.Filter, streams.FromSlice, runParallel_filter]

theorem collect_map (concurrency : Int) (g : T → U) (xs : List T) :
    ((streams.FromSlice (fun (_ : Unit) => xs) concurrency).Map g).Collect () =
      xs.map g := by
  simp [streams.Stream.Collect, streams.Stream.Map, streams.FromSlice, runParallel_map]

/-- Adding values one after the other to a set: the members afterwards. -/
theorem foldl_Add_mem [DecidableEq T] (xs : List T) (s : hashset.HashSet T) (y : T) :
    y ∈ (xs.foldl (fun s x => (s.Add x).2) s).elems ↔ y ∈ s.elems ∨ y ∈ xs := by
  induction xs generalizing s with
  | nil => simp
  | cons x xs ih =>
    rw [List.foldl_cons, ih]
    unfold hashset.HashSet.Add
    by_cases hx : x ∈ s.elems
    · simp only [hx, if_true, List.mem_cons]
      constructor
      · rintro (h | h)
        · exact Or.inl h
        · exact Or.inr (Or.inr h)
      · rintro (h | h | h)
        · exact Or.inl h
        · exact Or.inl (h ▸ hx)
        · exact Or.inr h
    · simp only [hx, if_false, List.mem_cons, List.mem_append, List.mem_singleton]
      tauto

/-- Adding values one after the other keeps a set free of repetitions. -/
theorem foldl_Add_WF [DecidableEq T] (xs : List T) (s : hashset.HashSet T) (h : s.WF) :
    (xs.foldl (fun s x => (s.Add x).2) s).WF := by
  induction xs generalizing s with
  | nil => simpa using h
  | cons x xs ih =>
    rw [List.foldl_cons]
    apply ih
    unfold hashset.HashSet.Add
    by_cases hx : x ∈ s.elems
    · simpa [hx] using h
    · simp only [hx, if_false, hashset.HashSet.WF]
      unfold hashset.HashSet.WF at h
      rw [List.nodup_append]
      refine ⟨h, List.nodup_singleton x, ?_⟩
      intro a ha hb
      rw [List.mem_singleton] at hb
      exact hx (hb ▸ ha)

/-- Adding values that are new and pairwise different appends them. -/
theorem foldl_Add_of_nodup [DecidableEq T] (xs : List T) (s : hashset.HashSet T)
    (h : (s.elems ++ xs).Nodup) :
    (xs.foldl (fun s x => (s.Add x).2) s).elems = s.elems ++ xs := by
  induction xs generalizing s with
  | nil => simp
  | cons x xs ih =>
    rw [List.foldl_cons]
    have hx : x ∉ s.elems := by
      intro hm
      have := (List.nodup_append.1 h).2.2
      exact this hm (List.mem_cons_self x xs)
    have e : (s.Add x).2 = ⟨s.elems ++ [x]⟩ := by simp [hashset.HashSet.Add, hx]
    rw [e, ih]
    · simp
    · simpa using h

theorem New_mem [DecidableEq T] (xs : List T) (y : T) :
    y ∈ (hashset.New xs).elems ↔ y ∈ xs := by
  simp [hashset.New, foldl_Add_mem]

theorem New_WF [DecidableEq T] (xs : List T) : (hashset.New xs).WF :=
  foldl_Add_WF xs ⟨[]⟩ List.nodup_nil

theorem New_perm_dedup [DecidableEq T] (xs : List T) :
    (hashset.New xs).elems.Perm xs.dedup := by
  rw [List.perm_ext_iff_of_nodup (New_WF xs) (List.nodup_dedup xs)]
  intro y
  rw [New_mem, List.mem_dedup]

theorem New_of_nodup [DecidableEq T] (xs : List T) (h : xs.Nodup) :
    (hashset.New xs).elems = xs := by
  have := foldl_Add_of_nodup xs ⟨[]⟩ (by simpa using h)
  simpa [hashset.New] using this

end helpers

section columns

variable {T : Type}

theorem Column.insertAll_eq_append (c : Column T) (xs : List T) :
    c.insertAll xs = { c with data := ⟨c.data.elems ++ xs⟩ } := by
  induction xs generalizing c with
  | nil => simp [Column.insertAll]
  | cons x xs ih =>
    have h := ih (c.Insert x).2
    simp only [Column.insertAll, List.foldl_cons] at h ⊢
    rw [h]
    simp [Column.Insert, vector.Vector.Add]

theorem UniqueColumn.insertAll_eq_fold [DecidableEq T] (c : UniqueColumn T) (xs : List T) :
    c.insertAll xs = { c with data := xs.foldl (fun s x => (s.Add x).2) c.data } := by
  induction xs generalizing c with
  | nil => simp [UniqueColumn.insertAll]
  | cons x xs ih =>
    have h := ih (c.Insert x).2
    simp only [UniqueColumn.insertAll, List.foldl_cons] at h ⊢
    rw [h]
    simp [UniqueColumn.Insert]

theorem UniqueColumn.DeleteWhere_elems [DecidableEq T] (c : UniqueColumn T) (P : T → Bool) :
    (c.DeleteWhere P).2.data = hashset.New (c.data.elems.filter (fun x => !P x)) := by
  simp [UniqueColumn.DeleteWhere, collect_filter, hashset.HashSet.Collect]

theorem UniqueColumn.UpdateWhere_elems [DecidableEq T] (c : UniqueColumn T) (P : T → Bool)
    (f : T → T) :
    (c.UpdateWhere P f).2.data =
      hashset.New (c.data.elems.map (fun x => if P x then f x else x)) := by
  simp [UniqueColumn.UpdateWhere, collect_map, hashset.HashSet.Collect]

end columns

/-! ## The claims -/

section claims

variable {T : Type}

/-- C1: `Insert(x)` on a unique column. If a row equal to `x` is present, it returns
false and the column (so `Len()` and the rows) is unchanged; if none is present, it
returns true, `Len()` grows by exactly 1 and the rows afterwards are the previous
rows plus `x`. -/
theorem C1_unique_insert [DecidableEq T] (c : UniqueColumn T) (x : T) :
    (x ∈ c.All →
      (c.Insert x).1 = false ∧ (c.Insert x).2.Len = c.Len ∧
        (c.Insert x).2.All = c.All ∧ (c.Insert x).2 = c) ∧
    (x ∉ c.All →
      (c.Insert x).1 = true ∧ (c.Insert x).2.Len = c.Len + 1 ∧
        (c.Insert x).2.All.Perm (x :: c.All) ∧
        ∀ y, y ∈ (c.Insert x).2.All ↔ y = x ∨ y ∈ c.All) := by
  constructor
  · intro h
    have h2 : x ∈ c.data.elems := h
    simp [UniqueColumn.Insert, hashset.HashSet.Add, h2]
  · intro h
    have h2 : x ∉ c.data.elems := h
    refine ⟨?_, ?_, ?_, ?_⟩
    · simp [UniqueColumn.Insert, hashset.HashSet.Add, h2]
    · simp [UniqueColumn.Insert, hashset.HashSet.Add, h2, UniqueColumn.Len,
        hashset.HashSet.Len]
    · simp only [UniqueColumn.Insert, hashset.HashSet.Add, h2, if_false, UniqueColumn.All,
        hashset.HashSet.Collect]
      exact List.perm_append_singleton x c.data.elems
    · intro y
      simp only [UniqueColumn.Insert, hashset.HashSet.Add, h2, if_false, UniqueColumn.All,
        hashset.HashSet.Collect, List.mem_append, List.mem_singleton]
      tauto

/-- C1 at the column of the test: inserting 3 into the rows 0..5 returns false and
changes nothing, inserting 7 returns true and gives seven rows. -/
theorem C1_unique_insert_witness :
    ((3 : Int) ∈ marks.All ∧ (marks.Insert 3).1 = false ∧ (marks.Insert 3).2 = marks) ∧
    ((7 : Int) ∉ marks.All ∧ (marks.Insert 7).1 = true ∧
      (marks.Insert 7).2.Len = marks.Len + 1) :=
  ⟨⟨by decide, ((C1_unique_insert marks 3).1 (by decide)).1,
      ((C1_unique_insert marks 3).1 (by decide)).2.2.2⟩,
    ⟨by decide, ((C1_unique_insert marks 7).2 (by decide)).1,
      ((C1_unique_insert marks 7).2 (by decide)).2.1⟩⟩

/-- C2: a fresh unique column has no rows; after inserting the values of `xs` one by
one, `Len()` is the number of distinct values of `xs`, and `All()`, like
`Stream().Collect()`, holds exactly those distinct values, once each, up to
order. -/
theorem C2_unique_insert_sequence [DecidableEq T] (name : String) (m : Int) (xs : List T) :
    (NewUniqueColumn name m : UniqueColumn T).All = [] ∧
    ((NewUniqueColumn name m : UniqueColumn T).insertAll xs).Len = xs.toFinset.card ∧
    ((NewUniqueColumn name m : UniqueColumn T).insertAll xs).All.Perm xs.dedup ∧
    ((NewUniqueColumn name m : UniqueColumn T).insertAll xs).All.Nodup ∧
    (∀ y, y ∈ ((NewUniqueColumn name m : UniqueColumn T).insertAll xs).All ↔ y ∈ xs) ∧
    ((((NewUniqueColumn name m : UniqueColumn T).insertAll xs).Stream).Collect
        ((NewUniqueColumn name m : UniqueColumn T).insertAll xs)).Perm xs.dedup := by
  have e : ((NewUniqueColumn name m : UniqueColumn T).insertAll xs).All =
      (hashset.New xs).elems := by
    rw [UniqueColumn.insertAll_eq_fold]
    simp [UniqueColumn.All, hashset.HashSet.Collect, NewUniqueColumn, hashset.New]
  have es : (((NewUniqueColumn name m : UniqueColumn T).insertAll xs).Stream).Collect
      ((NewUniqueColumn name m : UniqueColumn T).insertAll xs) =
      ((NewUniqueColumn name m : UniqueColumn T).insertAll xs).All := rfl
  refine ⟨rfl, ?_, ?_, ?_, ?_, ?_⟩
  rotate_right
  · rw [es, e]; exact New_perm_dedup xs
  · have : ((NewUniqueColumn name m : UniqueColumn T).insertAll xs).Len =
        ((NewUniqueColumn name m : UniqueColumn T).insertAll xs).All.length := rfl
    rw [this, e, (New_perm_dedup xs).length_eq, List.card_toFinset]
  · rw [e]; exact New_perm_dedup xs
  · rw [e]; exact New_WF xs
  · intro y; rw [e]; exact New_mem xs y

/-- C3: `Insert(x)` on a column returns true, increases `Len()` by exactly 1 and
makes `All()` the previous `All()` with `x` appended at the end, whether or not an
equal row is present; after any `N` inserts into a fresh column `Len()` is `N`. -/
theorem C3_column_insert (c : Column T) (x : T) (name : String) (m : Int) (xs : List T) :
    (c.Insert x).1 = true ∧
    (c.Insert x).2.Len = c.Len + 1 ∧
    (c.Insert x).2.All = c.All ++ [x] ∧
    ((NewColumn name m : Column T).insertAll xs).Len = xs.length ∧
    ((NewColumn name m : Column T).insertAll xs).All = xs := by
  refine ⟨rfl, ?_, rfl, ?_, ?_⟩
  · simp [Column.Insert, vector.Vector.Add, Column.Len, vector.Vector.Len]
  · rw [Column.insertAll_eq_append]
    simp [Column.Len, vector.Vector.Len, NewColumn, vector.New]
  · rw [Column.insertAll_eq_append]
    simp [Column.All, vector.Vector.Collect, NewColumn, vector.New]

/-- C4: `Delete(x)` on a column. If no row equals `x`, it returns false and the
column is unchanged; if some row equals `x`, it returns true, `Len()` drops by
exactly 1 and the rows afterwards are the previous ones with only the first row
equal to `x` taken out, every other row (later rows equal to `x` included) kept in
order. -/
theorem C4_column_delete [DecidableEq T] (c : Column T) (x : T) :
    (x ∉ c.All → (c.Delete x).1 = false ∧ (c.Delete x).2 = c) ∧
    (x ∈ c.All →
      (c.Delete x).1 = true ∧ (c.Delete x).2.Len + 1 = c.Len ∧
        ∃ pre post, c.All = pre ++ x :: post ∧ x ∉ pre ∧
          (c.Delete x).2.All = pre ++ post) := by
  constructor
  · intro h
    have h2 : removeFirst x c.data.elems = none := (removeFirst_eq_none x _).2 h
    simp [Column.Delete, vector.Vector.Remove, h2]
  · intro h
    have h2 : removeFirst x c.data.elems ≠ none := fun e => (removeFirst_eq_none x _).1 e h
    obtain ⟨l, hl⟩ := Option.ne_none_iff_exists'.1 h2
    obtain ⟨pre, post, e1, e2, e3⟩ := removeFirst_eq_some x _ l hl
    have e : (c.Delete x).2.data.elems = l := by
      simp [Column.Delete, vector.Vector.Remove, hl]
    refine ⟨?_, ?_, pre, post, e1, e2, ?_⟩
    · simp [Column.Delete, vector.Vector.Remove, hl]
    · show (c.Delete x).2.data.elems.length + 1 = c.data.elems.length
      rw [e, e1, e3]
      simp
      omega
    · show (c.Delete x).2.data.elems = pre ++ post
      rw [e, e3]

/-- C4 on the rows 0, 1, 2, 1, 4, 1: deleting 1 returns true and takes out the
first 1 only; deleting 9 returns false and changes nothing. -/
theorem C4_column_delete_witness :
    ((1 : Int) ∈ grades.All ∧ (grades.Delete 1).1 = true ∧
      (grades.Delete 1).2.Len + 1 = grades.Len ∧ (grades.Delete 1).2.All = [0, 2, 1, 4, 1]) ∧
    ((9 : Int) ∉ grades.All ∧ (grades.Delete 9).1 = false ∧ (grades.Delete 9).2 = grades) :=
  ⟨⟨by decide, ((C4_column_delete grades 1).2 (by decide)).1,
      ((C4_column_delete grades 1).2 (by decide)).2.1, by decide⟩,
    ⟨by decide, ((C4_column_delete grades 9).1 (by decide)).1,
      ((C4_column_delete grades 9).1 (by decide)).2⟩⟩

/-- C5: `Delete(x)` on a unique column (a set without repeated members). If `x` is
not present, it returns false and the column is unchanged; if `x` is present, it
returns true, `Len()` drops by exactly 1, `x` is no longer present and the rows
afterwards are exactly the previous rows other than `x`. -/
theorem C5_unique_delete [DecidableEq T] (c : UniqueColumn T) (x : T) (h : c.data.WF) :
    (x ∉ c.All → (c.Delete x).1 = false ∧ (c.Delete x).2 = c) ∧
    (x ∈ c.All →
      (c.Delete x).1 = true ∧ (c.Delete x).2.Len + 1 = c.Len ∧
        x ∉ (c.Delete x).2.All ∧
        (∀ y, y ∈ (c.Delete x).2.All ↔ y ∈ c.All ∧ y ≠ x) ∧
        (c.Delete x).2.data.WF) := by
  unfold hashset.HashSet.WF at h
  constructor
  · intro hx
    have h2 : x ∉ c.data.elems := hx
    simp [UniqueColumn.Delete, hashset.HashSet.Remove, h2]
  · intro hx
    have h2 : x ∈ c.data.elems := hx
    have e : (c.Delete x).2.data.elems = c.data.elems.erase x := by
      simp [UniqueColumn.Delete, hashset.HashSet.Remove, h2]
    refine ⟨?_, ?_, ?_, ?_, ?_⟩
    · simp [UniqueColumn.Delete, hashset.HashSet.Remove, h2]
    · show (c.Delete x).2.data.elems.length + 1 = c.data.elems.length
      rw [e, List.length_erase_of_mem h2]
      have : 0 < c.data.elems.length := List.length_pos_of_mem h2
      omega
    · show x ∉ (c.Delete x).2.data.elems
      rw [e, h.mem_erase_iff]
      simp
    · intro y
      show y ∈ (c.Delete x).2.data.elems ↔ y ∈ c.data.elems ∧ y ≠ x
      rw [e, h.mem_erase_iff]
      tauto
    · show (c.Delete x).2.data.elems.Nodup
      rw [e]
      exact h.erase x

/-- C5 at the column of the test: deleting 1 from the rows 0..5 returns true and
leaves the five rows 0, 2, 3, 4, 5. -/
theorem C5_unique_delete_witness :
    marks.data.WF ∧ (1 : Int) ∈ marks.All ∧
      (marks.Delete 1).1 = true ∧ (marks.Delete 1).2.Len + 1 = marks.Len ∧
      (1 : Int) ∉ (marks.Delete 1).2.All :=
  ⟨by decide, by decide,
    ((C5_unique_delete marks 1 (by decide)).2 (by decide)).1,
    ((C5_unique_delete marks 1 (by decide)).2 (by decide)).2.1,
    ((C5_unique_delete marks 1 (by decide)).2 (by decide)).2.2.1⟩

/-- C6: `FindWhere(P)` returns exactly the rows of `All()` that satisfy `P`: on a
column in the order of `All()` and with the same multiplicities, on a unique column
up to order.  The result is the same for every configured `maxConcurrency` and for
every concurrency degree handed to the stream engine, and the column after the call
is the column before it. -/
theorem C6_find_where (c : Column T) (u : UniqueColumn T) (P : T → Bool) (m k : Int) :
    ((c.FindWhere P).1 = c.All.filter P ∧ (c.FindWhere P).2 = c ∧
      (({ c with maxConcurrency := m } : Column T).FindWhere P).1 = (c.FindWhere P).1 ∧
      ((streams.FromSlice (fun (_ : Unit) => c.data.Collect) k).Filter P).Collect () =
        (c.FindWhere P).1) ∧
    ((u.FindWhere P).1.Perm (u.All.filter P) ∧ (u.FindWhere P).2 = u ∧
      (({ u with maxConcurrency := m } : UniqueColumn T).FindWhere P).1.Perm
        (u.All.filter P) ∧
      (((streams.FromSlice (fun (_ : Unit) => u.data.Collect) k).Filter P).Collect ()).Perm
        (u.All.filter P)) := by
  refine ⟨⟨?_, rfl, ?_, ?_⟩, ⟨?_, rfl, ?_, ?_⟩⟩
  · simp [Column.FindWhere, collect_filter, Column.All]
  · simp [Column.FindWhere, collect_filter]
  · simp [Column.FindWhere, collect_filter]
  · simp [UniqueColumn.FindWhere, collect_filter, UniqueColumn.All]
  · simp [UniqueColumn.FindWhere, collect_filter, UniqueColumn.All]
  · simp [collect_filter, UniqueColumn.All]

/-- C7: after `DeleteWhere(P)` on a column, `All()` is the previous `All()`
restricted to the rows for which `P` is false, in the same relative order and with
the same multiplicities; `name` and `maxConcurrency` (and the writer reference) are
unchanged. -/
theorem C7_column_delete_where (c : Column T) (P : T → Bool) :
    (c.DeleteWhere P).All = c.All.filter (fun x => !P x) ∧
    (c.DeleteWhere P).name = c.name ∧
    (c.DeleteWhere P).maxConcurrency = c.maxConcurrency ∧
    (c.DeleteWhere P).writer = c.writer := by
  refine ⟨?_, rfl, rfl, rfl⟩
  simp [Column.DeleteWhere, collect_filter, Column.All, vector.New, vector.Vector.Collect]

/-- C8: after `UpdateWhere(P, f)` on a column, `All()` has the length it had before
and its i-th row is `f r` when the previous i-th row `r` satisfies `P` and `r`
itself otherwise: the result is the order-preserving map of the previous rows. -/
theorem C8_column_update_where (c : Column T) (P : T → Bool) (f : T → T) :
    (c.UpdateWhere P f).All = c.All.map (fun r => if P r then f r else r) ∧
    (c.UpdateWhere P f).Len = c.Len ∧
    ∀ i : Nat, (c.UpdateWhere P f).All[i]? =
      (c.All[i]?).map (fun r => if P r then f r else r) := by
  have e : (c.UpdateWhere P f).All = c.All.map (fun r => if P r then f r else r) := by
    simp [Column.UpdateWhere, collect_map, Column.All, vector.New, vector.Vector.Collect]
  refine ⟨e, ?_, ?_⟩
  · show (c.UpdateWhere P f).All.length = c.All.length
    rw [e, List.length_map]
  · intro i
    rw [e, List.getElem?_map]

/-- C9: `DeleteWhere(P)` on a unique column (a set without repeated members)
returns true, and the rows afterwards are exactly the previous rows for which `P`
is false (each once); when no row satisfies `P` the contents are unchanged. -/
theorem C9_unique_delete_where [DecidableEq T] (c : UniqueColumn T) (P : T → Bool)
    (h : c.data.WF) :
    (c.DeleteWhere P).1 = true ∧
    (∀ y, y ∈ (c.DeleteWhere P).2.All ↔ y ∈ c.All ∧ P y = false) ∧
    (c.DeleteWhere P).2.All.Perm (c.All.filter (fun x => !P x)) ∧
    (c.DeleteWhere P).2.data.WF ∧
    ((∀ y ∈ c.All, P y = false) →
      (c.DeleteWhere P).2.All.Perm c.All ∧ (c.DeleteWhere P).2.Len = c.Len) := by
  unfold hashset.HashSet.WF at h
  have hf : (c.data.elems.filter (fun x => !P x)).Nodup := h.filter _
  have e : (c.DeleteWhere P).2.All = c.All.filter (fun x => !P x) := by
    show (c.DeleteWhere P).2.data.elems = c.data.elems.filter (fun x => !P x)
    rw [UniqueColumn.DeleteWhere_elems, New_of_nodup _ hf]
  refine ⟨rfl, ?_, ?_, ?_, ?_⟩
  · intro y
    rw [e]
    simp [List.mem_filter]
  · rw [e]
  · rw [UniqueColumn.DeleteWhere_elems]
    exact New_WF _
  · intro hall
    have e2 : c.All.filter (fun x => !P x) = c.All := by
      rw [List.filter_eq_self]
      intro a ha
      simp [hall a ha]
    constructor
    · rw [e, e2]
    · show (c.DeleteWhere P).2.All.length = c.All.length
      rw [e, e2]

/-- C9 at the column of the test: deleting the rows below 0 from 0..5 returns true
and keeps the six rows. -/
theorem C9_unique_delete_where_witness :
    marks.data.WF ∧ (∀ y ∈ marks.All, decide (y < 0) = false) ∧
      (marks.DeleteWhere (fun x => decide (x < 0))).1 = true ∧
      (marks.DeleteWhere (fun x => decide (x < 0))).2.Len = marks.Len :=
  ⟨by decide, by decide,
    (C9_unique_delete_where marks (fun x => decide (x < 0)) (by decide)).1,
    ((C9_unique_delete_where marks (fun x => decide (x < 0)) (by decide)).2.2.2.2
      (by decide)).2⟩

/-- C10: `UpdateWhere(P, f)` on a unique column (a set without repeated members)
returns true, and the rows afterwards are exactly the images of the previous rows
under
`x ↦ if P x then f x else x`, each once: equal outputs collapse to one entry,
so `Len()` afterwards is at most the previous `Len()`, and equals it when that map
is injective on the previous rows. -/
theorem C10_unique_update_where [DecidableEq T] (c : UniqueColumn T) (P : T → Bool)
    (f : T → T) (h : c.data.WF) :
    (c.UpdateWhere P f).1 = true ∧
    (∀ y, y ∈ (c.UpdateWhere P f).2.All ↔
      ∃ x, x ∈ c.All ∧ y = (if P x then f x else x)) ∧
    (c.UpdateWhere P f).2.All.Nodup ∧
    (c.UpdateWhere P f).2.Len ≤ c.Len ∧
    ((∀ a ∈ c.All, ∀ b ∈ c.All,
        (if P a then f a else a) = (if P b then f b else b) → a = b) →
      (c.UpdateWhere P f).2.Len = c.Len) := by
  unfold hashset.HashSet.WF at h
  have e : (c.UpdateWhere P f).2.All =
      (hashset.New (c.All.map (fun x => if P x then f x else x))).elems := by
    show (c.UpdateWhere P f).2.data.elems = _
    rw [UniqueColumn.UpdateWhere_elems]
    rfl
  have hl : (c.UpdateWhere P f).2.Len = (c.UpdateWhere P f).2.All.length := rfl
  refine ⟨rfl, ?_, ?_, ?_, ?_⟩
  · intro y
    rw [e, New_mem, List.mem_map]
    constructor
    · rintro ⟨x, hx, rfl⟩
      exact ⟨x, hx, rfl⟩
    · rintro ⟨x, hx, rfl⟩
      exact ⟨x, hx, rfl⟩
  · rw [e]
    exact New_WF _
  · rw [hl, e, (New_perm_dedup _).length_eq]
    calc (c.All.map (fun x => if P x then f x else x)).dedup.length
        ≤ (c.All.map (fun x => if P x then f x else x)).length :=
          (List.dedup_sublist _).length_le
      _ = c.Len := by rw [List.length_map]; rfl
  · intro hinj
    have hn : (c.All.map (fun x => if P x then f x else x)).Nodup :=
      List.Nodup.map_on (fun a ha b hb hab => hinj a ha b hb hab) h
    rw [hl, e, New_of_nodup _ hn, List.length_map]
    rfl

/-- C10 at the column of the test: sending the rows 3 and 4 of 0..5 to 0 returns
true and leaves the four rows 0, 1, 2, 5. -/
theorem C10_unique_update_where_witness :
    marks.data.WF ∧
      (marks.UpdateWhere (fun x => decide (x > 2) && decide (x < 5)) (fun _ => 0)).1 = true ∧
      (marks.UpdateWhere (fun x => decide (x > 2) && decide (x < 5)) (fun _ => 0)).2.Len ≤
        marks.Len ∧
      (marks.UpdateWhere (fun x => decide (x > 2) && decide (x < 5)) (fun _ => 0)).2.All =
        [0, 1, 2, 5] :=
  ⟨by decide,
    (C10_unique_update_where marks (fun x => decide (x > 2) && decide (x < 5)) (fun _ => 0)
      (by decide)).1,
    (C10_unique_update_where marks (fun x => decide (x > 2) && decide (x < 5)) (fun _ => 0)
      (by decide)).2.2.2.1,
    by decide⟩

/-- C11: in every unique column reached from `NewUniqueColumn` by any sequence of
`Insert`, `Delete`, `DeleteWhere` and `UpdateWhere` calls, whatever their arguments
(transforms with collisions included), no two rows are equal: `All()` has no
duplicates and `Len()` is the number of distinct rows of `All()`. -/
theorem C11_unique_invariant [DecidableEq T] (name : String) (m : Int)
    (cs : List (UniqueCall T)) :
    ((NewUniqueColumn name m : UniqueColumn T).calls cs).data.WF ∧
    ((NewUniqueColumn name m : UniqueColumn T).calls cs).All.Nodup ∧
    ((NewUniqueColumn name m : UniqueColumn T).calls cs).Len =
      ((NewUniqueColumn name m : UniqueColumn T).calls cs).All.toFinset.card := by
  have step : ∀ (c : UniqueColumn T) (k : UniqueCall T), c.data.WF → (c.call k).data.WF := by
    intro c k h
    cases k with
    | insert x =>
      exact foldl_Add_WF [x] c.data h
    | delete x =>
      show (c.data.Remove x).2.WF
      unfold hashset.HashSet.Remove
      by_cases hx : x ∈ c.data.elems
      · simp only [hx, if_true]
        exact List.Nodup.erase x h
      · simpa [hx] using h
    | deleteWhere P =>
      show (c.DeleteWhere P).2.data.WF
      rw [UniqueColumn.DeleteWhere_elems]
      exact New_WF _
    | updateWhere P f =>
      show (c.UpdateWhere P f).2.data.WF
      rw [UniqueColumn.UpdateWhere_elems]
      exact New_WF _
  have all : ∀ (cs : List (UniqueCall T)) (c : UniqueColumn T), c.data.WF →
      (c.calls cs).data.WF := by
    intro cs
    induction cs with
    | nil => intro c h; exact h
    | cons k ks ih => intro c h; exact ih (c.call k) (step c k h)
  have wf := all cs (NewUniqueColumn name m : UniqueColumn T) List.nodup_nil
  have nd : ((NewUniqueColumn name m : UniqueColumn T).calls cs).All.Nodup := wf
  refine ⟨wf, nd, ?_⟩
  show ((NewUniqueColumn name m : UniqueColumn T).calls cs).All.length = _
  rw [List.card_toFinset, nd.dedup]

/-- C13: `computeConcurrency(size, maxConcurrency)` is 1 when `size < 200`, is 2
when `200 ≤ size ≤ 1000` and `maxConcurrency > 1`, and is `maxConcurrency` in
every other case. -/
theorem C13_compute_concurrency (size maxConcurrency : Int) :
    (size < 200 → computeConcurrency size maxConcurrency = 1) ∧
    (200 ≤ size ∧ size ≤ 1000 ∧ maxConcurrency > 1 →
      computeConcurrency size maxConcurrency = 2) ∧
    (¬ size < 200 ∧ ¬ (200 ≤ size ∧ size ≤ 1000 ∧ maxConcurrency > 1) →
      computeConcurrency size maxConcurrency = maxConcurrency) := by
  unfold computeConcurrency
  refine ⟨?_, ?_, ?_⟩
  · intro h
    simp [h]
  · rintro ⟨h1, h2, h3⟩
    have : ¬ size < 200 := by omega
    simp [this, h2, h3]
  · rintro ⟨h1, h2⟩
    have h3 : ¬ (size ≤ 1000 ∧ maxConcurrency > 1) := by
      rintro ⟨a, b⟩
      exact h2 ⟨by omega, a, b⟩
    simp only [h1, if_false, h3]

/-- C13 on the three branches: 199 rows give 1, 1000 rows with ceiling 8 give 2,
1001 rows with ceiling 8 give 8 and 500 rows with ceiling 1 give 1. -/
theorem C13_compute_concurrency_witness :
    computeConcurrency 199 8 = 1 ∧ computeConcurrency 1000 8 = 2 ∧
      computeConcurrency 1001 8 = 8 ∧ computeConcurrency 500 1 = 1 :=
  ⟨(C13_compute_concurrency 199 8).1 (by decide),
    (C13_compute_concurrency 1000 8).2.1 (by decide),
    (C13_compute_concurrency 1001 8).2.2 (by decide),
    (C13_compute_concurrency 500 1).2.2 (by decide)⟩

/-- C14: for every size (so for every `size ≥ 0`) and `maxConcurrency ≥ 1`,
`computeConcurrency(size, maxConcurrency)` is at least 1 and at most
`maxConcurrency`; with `maxConcurrency = 1` it is 1 for every size. -/
theorem C14_compute_concurrency_bounds (size maxConcurrency : Int)
    (h2 : 1 ≤ maxConcurrency) :
    1 ≤ computeConcurrency size maxConcurrency ∧
    computeConcurrency size maxConcurrency ≤ maxConcurrency ∧
    computeConcurrency size 1 = 1 := by
  unfold computeConcurrency
  refine ⟨?_, ?_, ?_⟩
  · split
    · decide
    · split
      · decide
      · exact h2
  · split
    · exact h2
    · rename_i h
      split
      · rename_i h3
        omega
      · exact le_refl _
  · split
    · rfl
    · split
      · rename_i h3
        omega
      · rfl

/-- C14 for 500 rows and a ceiling of 4: the concurrency is 2, between 1 and 4. -/
theorem C14_compute_concurrency_bounds_witness :
    (1 : Int) ≤ 4 ∧ 1 ≤ computeConcurrency 500 4 ∧
      computeConcurrency 500 4 ≤ 4 ∧ computeConcurrency 500 1 = 1 :=
  ⟨by decide,
    (C14_compute_concurrency_bounds 500 4 (by decide)).1,
    (C14_compute_concurrency_bounds 500 4 (by decide)).2.1,
    (C14_compute_concurrency_bounds 500 4 (by decide)).2.2⟩

/-- C20: right after `DeleteWhere(P)`, `FindWhere(P)` returns the empty sequence, and
a second `DeleteWhere(P)` leaves the contents as the first one left them, on a
column and on a unique column. -/
theorem C20_delete_where_idempotent [DecidableEq T] (c : Column T) (u : UniqueColumn T)
    (P : T → Bool) :
    (((c.DeleteWhere P).FindWhere P).1 = [] ∧
      (c.DeleteWhere P).DeleteWhere P = c.DeleteWhere P) ∧
    (((u.DeleteWhere P).2.FindWhere P).1 = [] ∧
      ((u.DeleteWhere P).2.DeleteWhere P).2.All.Perm (u.DeleteWhere P).2.All ∧
      ((u.DeleteWhere P).2.DeleteWhere P).2.Len = (u.DeleteWhere P).2.Len ∧
      ((u.DeleteWhere P).2.DeleteWhere P).1 = true) := by
  have hc : (c.DeleteWhere P).data.elems = c.data.elems.filter (fun x => !P x) := by
    simp [Column.DeleteWhere, collect_filter, vector.New, vector.Vector.Collect]
  have keep : ∀ l : List T, (∀ y ∈ l, P y = false) → l.filter (fun x => !P x) = l := by
    intro l hl
    rw [List.filter_eq_self]
    intro a ha
    simp [hl a ha]
  have gone : ∀ l : List T, (∀ y ∈ l, P y = false) → l.filter P = [] := by
    intro l hl
    rw [List.filter_eq_nil_iff]
    intro a ha
    simp [hl a ha]
  have hcP : ∀ y ∈ (c.DeleteWhere P).data.elems, P y = false := by
    intro y hy
    rw [hc, List.mem_filter] at hy
    simpa using hy.2
  have huP : ∀ y ∈ (u.DeleteWhere P).2.data.elems, P y = false := by
    intro y hy
    rw [UniqueColumn.DeleteWhere_elems, New_mem, List.mem_filter] at hy
    simpa using hy.2
  have huWF : (u.DeleteWhere P).2.data.elems.Nodup := by
    rw [UniqueColumn.DeleteWhere_elems]
    exact New_WF _
  have hu2 : ((u.DeleteWhere P).2.DeleteWhere P).2.data.elems =
      (u.DeleteWhere P).2.data.elems := by
    rw [UniqueColumn.DeleteWhere_elems (u.DeleteWhere P).2, keep _ huP, New_of_nodup _ huWF]
  refine ⟨⟨?_, ?_⟩, ⟨?_, ?_, ?_, rfl⟩⟩
  · have : ((c.DeleteWhere P).FindWhere P).1 = (c.DeleteWhere P).data.elems.filter P := by
      simp [Column.FindWhere, collect_filter, vector.Vector.Collect]
    rw [this, gone _ hcP]
  · have e : ((c.DeleteWhere P).DeleteWhere P).data.elems = (c.DeleteWhere P).data.elems := by
      have := keep _ hcP
      rw [hc] at this
      simp only [Column.DeleteWhere, collect_filter, vector.New, vector.Vector.Collect]
      exact this
    have e2 : ((c.DeleteWhere P).DeleteWhere P).data = (c.DeleteWhere P).data := by
      cases h1 : ((c.DeleteWhere P).DeleteWhere P).data
      cases h2 : (c.DeleteWhere P).data
      rw [h1, h2] at e
      simpa using e
    show ({ (c.DeleteWhere P) with data := ((c.DeleteWhere P).DeleteWhere P).data } : Column T) = _
    rw [e2]
  · have : ((u.DeleteWhere P).2.FindWhere P).1 = (u.DeleteWhere P).2.data.elems.filter P := by
      simp [UniqueColumn.FindWhere, collect_filter, hashset.HashSet.Collect]
    rw [this, gone _ huP]
  · show List.Perm ((u.DeleteWhere P).2.DeleteWhere P).2.data.elems
      (u.DeleteWhere P).2.data.elems
    rw [hu2]
  · show ((u.DeleteWhere P).2.DeleteWhere P).2.data.elems.length =
      (u.DeleteWhere P).2.data.elems.length
    rw [hu2]

end claims

/-! ## Lemmas on persistence -/

section persistence

variable {D T : Type}

theorem Column.DeleteWhere_data (c : Column T) (P : T → Bool) :
    (c.DeleteWhere P).data = ⟨c.data.elems.filter (fun x => !P x)⟩ := by
  simp [Column.DeleteWhere, collect_filter, vector.New, vector.Vector.Collect]

theorem Column.UpdateWhere_data (c : Column T) (P : T → Bool) (g : T → T) :
    (c.UpdateWhere P g).data = ⟨c.data.elems.map (fun x => if P x then g x else x)⟩ := by
  simp [Column.UpdateWhere, collect_map, vector.New, vector.Vector.Collect]

theorem Shared.rowLines_length (fmt : T → String) (now : Nat → String) (k : Nat)
    (rows : List T) : (Shared.rowLines fmt now k rows).length = rows.length := by
  induction rows generalizing k with
  | nil => rfl
  | cons v vs ih => simp [Shared.rowLines, ih]

/-- What a round of `writeToFile` leaves in the file of a running goroutine. -/
theorem Shared.fileOf_tick (collect : D → List T) (fmt : T → String) (now : Nat → String)
    (s : Shared D T) (i : Nat) (t : writerTask T) (h1 : s.tasks.get? i = some t)
    (h2 : t.phase = Phase.running) :
    (Shared.tick collect fmt now s i).fileOf i =
      Shared.headerLine t.header :: Shared.rowLines fmt now 0 (collect (s.heap t.data)) := by
  have hi : i < s.tasks.length := by
    rcases Nat.lt_or_ge i s.tasks.length with h | h
    · exact h
    · rw [List.get?_eq_none.2 h] at h1
      cases h1
  have h1' : s.tasks[i]? = some t := by simpa using h1
  have e : Shared.tick collect fmt now s i =
      s.setTask i { t with file := (Shared.headerLine t.header ::
        Shared.rowLines fmt now 0 (collect (s.heap t.data))) } := by
    simp only [Shared.tick, h1, h2, if_true]
  rw [e]
  simp [Shared.fileOf, Shared.setTask, List.getElem?_set, hi]

theorem Shared.StopPersistence_writer (s : Shared D T) : s.StopPersistence.writer = none := by
  unfold Shared.StopPersistence
  split
  · assumption
  · split <;> rfl

end persistence

/-! ## The claims on persistence -/

section persistenceClaims

variable {T : Type}

/-- C15: a round of `writeToFile` replaces the file content by one header line
followed by one data line per row that `data()` returns, whatever the file held
before.  `data()` reads the container bound when `Persist` was called: on the
rows 0, 1, 2, 3, after `Persist`, `DeleteWhere(x > 1)` and one round, the file has
the header and four data lines while `Len()` is 2. -/
theorem C15_file_after_tick :
    (∀ (fmt : T → String) (now : Nat → String) (s : ColumnRef T) (i : Nat)
        (t : writerTask T), s.tasks.get? i = some t → t.phase = Phase.running →
      (ColumnRef.tick fmt now s i).fileOf i =
          Shared.headerLine t.header ::
            Shared.rowLines fmt now 0 (s.heap t.data).Collect ∧
        ((ColumnRef.tick fmt now s i).fileOf i).length = 1 + (s.heap t.data).Len) ∧
    (∃ s2, ColumnRef.DeleteWhere quadsPersisted (fun x => decide (x > 1)) = some s2 ∧
      (ColumnRef.tick showRow clock (s2.start 0) 0).fileOf 0 =
        ["Marks, Timestamp\n", "0, now\n", "1, now\n", "2, now\n", "3, now\n"] ∧
      (ColumnRef.tick showRow clock (s2.start 0) 0).column.All = [0, 1] ∧
      (ColumnRef.tick showRow clock (s2.start 0) 0).column.Len = 2) := by
  constructor
  · intro fmt now s i t h1 h2
    have e := Shared.fileOf_tick vector.Vector.Collect fmt now s i t h1 h2
    refine ⟨e, ?_⟩
    unfold ColumnRef.tick
    rw [e]
    simp [Shared.rowLines_length, vector.Vector.Collect, vector.Vector.Len]
    omega
  · exact ⟨_, rfl, by decide, by decide, by decide⟩

/-- C16: the rows a round writes are those of the container that `c.data` pointed to
when `Persist` was called.  After `Persist` and a `DeleteWhere` or `UpdateWhere`
the column holds the new rows while the round writes the rows from before the
call; an `Insert` made after `Persist` is written. -/
theorem C16_writer_reads_bound_container [DecidableEq T] (c : Column T) (u : UniqueColumn T)
    (P : T → Bool) (g : T → T) (x : T) (fmt : T → String) (now : Nat → String)
    (out : String) (period : Int) :
    (∃ s2, ColumnRef.DeleteWhere (ColumnRef.persisted c out period) P = some s2 ∧
      s2.column.All = c.All.filter (fun r => !P r) ∧
      (ColumnRef.tick fmt now (s2.start 0) 0).fileOf 0 =
        Shared.headerLine c.name :: Shared.rowLines fmt now 0 c.All) ∧
    (∃ s2, ColumnRef.UpdateWhere (ColumnRef.persisted c out period) P g = some s2 ∧
      s2.column.All = c.All.map (fun r => if P r then g r else r) ∧
      (ColumnRef.tick fmt now (s2.start 0) 0).fileOf 0 =
        Shared.headerLine c.name :: Shared.rowLines fmt now 0 c.All) ∧
    (∃ r, ColumnRef.Insert (ColumnRef.persisted c out period) x = some r ∧
      r.2.column.All = c.All ++ [x] ∧
      (ColumnRef.tick fmt now (r.2.start 0) 0).fileOf 0 =
        Shared.headerLine c.name :: Shared.rowLines fmt now 0 (c.All ++ [x])) ∧
    (∃ r, UniqueColumnRef.DeleteWhere (UniqueColumnRef.persisted u out period) P = some r ∧
      (∀ y, y ∈ r.2.column.All ↔ y ∈ u.All ∧ P y = false) ∧
      (UniqueColumnRef.tick fmt now (r.2.start 0) 0).fileOf 0 =
        Shared.headerLine u.name :: Shared.rowLines fmt now 0 u.All) := by
  refine ⟨⟨_, rfl, ?_, rfl⟩, ⟨_, rfl, ?_, rfl⟩, ⟨_, rfl, rfl, rfl⟩, ⟨_, rfl, ?_, rfl⟩⟩
  · show ((ColumnRef.persisted c out period).column.DeleteWhere P).data.elems = _
    rw [Column.DeleteWhere_data]
    rfl
  · show ((ColumnRef.persisted c out period).column.UpdateWhere P g).data.elems = _
    rw [Column.UpdateWhere_data]
    rfl
  · intro y
    show y ∈ ((UniqueColumnRef.persisted u out period).column.DeleteWhere P).2.data.elems ↔ _
    rw [UniqueColumn.DeleteWhere_elems, New_mem, List.mem_filter]
    simp only [Bool.not_eq_true']
    rfl

/-- C17: `Persist` on a column and on a unique column.  If the file cannot be
created, the error is returned and nothing changes: no goroutine is started, the
writer reference and the data are what they were.  If the file is created, nil is
returned, a new goroutine is started (not stopped, with the given period, on the
empty file) and the writer reference points to its `fileWriter`; the data is
unchanged. -/
theorem C17_persist (s : ColumnRef T) (u : UniqueColumnRef T) (e out : String)
    (period : Int) :
    (s.Persist (some e) out period = (some e, s) ∧
      (s.Persist none out period).1 = none ∧
      (s.Persist none out period).2.writer = some s.tasks.length ∧
      (s.Persist none out period).2.tasks = s.tasks ++
        [{ writer := { period := period, stopped := false }, outputFilename := out,
           file := [], header := s.name, data := s.data, phase := Phase.spawned }] ∧
      (ColumnRef.column (s.Persist none out period).2).writer =
        some { period := period, stopped := false } ∧
      (ColumnRef.column (s.Persist none out period).2).data = s.column.data) ∧
    (u.Persist (some e) out period = (some e, u) ∧
      (u.Persist none out period).1 = none ∧
      (u.Persist none out period).2.writer = some u.tasks.length ∧
      (u.Persist none out period).2.tasks = u.tasks ++
        [{ writer := { period := period, stopped := false }, outputFilename := out,
           file := [], header := u.name, data := u.data, phase := Phase.spawned }] ∧
      (UniqueColumnRef.column (u.Persist none out period).2).writer =
        some { period := period, stopped := false } ∧
      (UniqueColumnRef.column (u.Persist none out period).2).data = u.column.data) := by
  refine ⟨⟨rfl, rfl, rfl, rfl, ?_, rfl⟩, ⟨rfl, rfl, rfl, rfl, ?_, rfl⟩⟩
  · simp [ColumnRef.column, Shared.writerValue, Shared.Persist]
  · simp [UniqueColumnRef.column, Shared.writerValue, Shared.Persist]

/-- C18: `StopPersistence()` on a column and on a unique column.  Without an active
writer it changes nothing and sends nothing.  In every case the writer reference
is absent afterwards, `name`, `maxConcurrency` and the data are what they were, and
a second `StopPersistence()` changes nothing. -/
theorem C18_stop_persistence (s : ColumnRef T) (u : UniqueColumnRef T) :
    ((s.writer = none → s.StopPersistence = s) ∧
      s.StopPersistence.writer = none ∧
      (ColumnRef.column s.StopPersistence).writer = none ∧
      (ColumnRef.column s.StopPersistence).name = s.column.name ∧
      (ColumnRef.column s.StopPersistence).maxConcurrency = s.column.maxConcurrency ∧
      (ColumnRef.column s.StopPersistence).data = s.column.data ∧
      s.StopPersistence.StopPersistence = s.StopPersistence) ∧
    ((u.writer = none → u.StopPersistence = u) ∧
      u.StopPersistence.writer = none ∧
      (UniqueColumnRef.column u.StopPersistence).writer = none ∧
      (UniqueColumnRef.column u.StopPersistence).name = u.column.name ∧
      (UniqueColumnRef.column u.StopPersistence).maxConcurrency = u.column.maxConcurrency ∧
      (UniqueColumnRef.column u.StopPersistence).data = u.column.data ∧
      u.StopPersistence.StopPersistence = u.StopPersistence) := by
  have idle : ∀ {D : Type} (w : Shared D T), w.writer = none → w.StopPersistence = w := by
    intro D w h
    unfold Shared.StopPersistence
    rw [h]
  have frame : ∀ {D : Type} (w : Shared D T),
      w.StopPersistence.name = w.name ∧
      w.StopPersistence.maxConcurrency = w.maxConcurrency ∧
      w.StopPersistence.container = w.container := by
    intro D w
    unfold Shared.StopPersistence
    split
    · exact ⟨rfl, rfl, rfl⟩
    · split
      · exact ⟨rfl, rfl, rfl⟩
      · exact ⟨rfl, rfl, rfl⟩
  refine ⟨⟨idle s, Shared.StopPersistence_writer s, ?_, (frame s).1, (frame s).2.1,
      (frame s).2.2, idle _ (Shared.StopPersistence_writer s)⟩,
    ⟨idle u, Shared.StopPersistence_writer u, ?_, (frame u).1, (frame u).2.1,
      (frame u).2.2, idle _ (Shared.StopPersistence_writer u)⟩⟩
  · show s.StopPersistence.writerValue = none
    unfold Shared.writerValue
    rw [Shared.StopPersistence_writer]
  · show u.StopPersistence.writerValue = none
    unfold Shared.writerValue
    rw [Shared.StopPersistence_writer]

/-- C18 on the rows 0, 1, 2, 3: without a writer `StopPersistence()` changes
nothing; after `Persist` the writer is present, `StopPersistence()` clears it,
sends the message and gets the answer, and the goroutine has returned. -/
theorem C18_stop_persistence_witness :
    ((ColumnRef.ofColumn quads).writer = none ∧
      (ColumnRef.ofColumn quads).StopPersistence = ColumnRef.ofColumn quads) ∧
    (quadsPersisted.writer = some 0 ∧ quadsPersisted.StopPersistence.writer = none ∧
      quadsPersisted.StopPersistence.signals = ["Down", "Down"] ∧
      quadsPersisted.StopPersistence.tasks.map (fun t => t.phase) = [Phase.returned]) :=
  ⟨⟨rfl, (C18_stop_persistence (ColumnRef.ofColumn quads)
      (UniqueColumnRef.ofColumn marks)).1.1 rfl⟩,
    ⟨rfl, (C18_stop_persistence quadsPersisted (UniqueColumnRef.ofColumn marks)).1.2.1,
      by decide, by decide⟩⟩

/-- C19: while the writer goroutine of a column is in `writeToFile` it holds the
read lock, from its start through every round, so `Insert`, `Delete`,
`DeleteWhere` and `UpdateWhere` do not get the exclusive lock and do not
complete; they complete before the goroutine has taken the lock and after
`StopPersistence()`. -/
theorem C19_writer_blocks_mutations [DecidableEq T] (c : Column T) (u : UniqueColumn T) (x : T)
    (P : T → Bool) (g : T → T) (fmt : T → String) (now : Nat → String) (out : String)
    (period : Int) :
    ((ColumnRef.persisting c out period).readLocked = true ∧
      ColumnRef.Insert (ColumnRef.persisting c out period) x = none ∧
      ColumnRef.Delete (ColumnRef.persisting c out period) x = none ∧
      ColumnRef.DeleteWhere (ColumnRef.persisting c out period) P = none ∧
      ColumnRef.UpdateWhere (ColumnRef.persisting c out period) P g = none ∧
      (ColumnRef.tick fmt now (ColumnRef.persisting c out period) 0).readLocked = true ∧
      ColumnRef.Insert (ColumnRef.tick fmt now (ColumnRef.persisting c out period) 0) x =
        none ∧
      (ColumnRef.Insert (ColumnRef.persisted c out period) x).isSome = true ∧
      (ColumnRef.Insert (ColumnRef.persisting c out period).StopPersistence x).isSome =
        true) ∧
    ((UniqueColumnRef.persisting u out period).readLocked = true ∧
      UniqueColumnRef.Insert (UniqueColumnRef.persisting u out period) x = none ∧
      UniqueColumnRef.Delete (UniqueColumnRef.persisting u out period) x = none ∧
      UniqueColumnRef.DeleteWhere (UniqueColumnRef.persisting u out period) P = none ∧
      UniqueColumnRef.UpdateWhere (UniqueColumnRef.persisting u out period) P g = none ∧
      UniqueColumnRef.Insert
        (UniqueColumnRef.tick fmt now (UniqueColumnRef.persisting u out period) 0) x = none) :=
  ⟨⟨rfl, rfl, rfl, rfl, rfl, rfl, rfl, rfl, rfl⟩, ⟨rfl, rfl, rfl, rfl, rfl, rfl⟩⟩

end persistenceClaims

end columnstore
